import Mathlib

/-!
Shallow embedding of the CHIP-8 interpreter core from `src/chip8/mod.rs` and
`src/chip8/instructions.rs` (crate `chip8stuff`).

Conventions of the embedding:
* machine integers are `Nat` with explicit `% 2^w` wherever the Rust type
  truncates (`u8` arithmetic is `% 256`, `u16` arithmetic is `% 65536`);
  plain wrapping (release-profile) semantics is used for the unchecked
  `-`, `+=`, `^=`, `<<` operators of the source, matching the spec's
  "implementation-defined modulo-256 wraparound";
* array indexing that can go out of bounds in the source (memory, the
  sprite slice) is modelled with an explicit bounds check that produces an
  `Except.error`/`fatal` outcome, standing for the Rust bounds-check panic;
* `Vec<usize>` (the call stack) is modelled as `List Nat` with the list
  head as the top of the stack;
* register indexes always come from instruction nibbles and are `< 16`,
  so the register file is `Fin 16 → Nat` and instruction operands that the
  source types as `usize`/`u8` register indexes are `Fin 16`;
* bit masks `w & 0xF000 >> 12`, `w & 0xFFF`, `w & 0xFF` are written with
  the arithmetically equal `/` and `%` forms.
-/

/-- Keyboard state: 16-bit mask (`struct Keyboard(u16)`). -/
structure Keyboard where
  mask : Nat
deriving DecidableEq

/-- The value of `2_u16.pow(key)`: wraps modulo 2^16 (release profile), so it
is `0` for `key ≥ 16`. -/
def Keyboard.pow2 (key : Nat) : Nat := 2 ^ key % 65536

/-- Source `Keyboard::set_down`: `self.0 |= 2_u16.pow(key)`. -/
def Keyboard.set_down (k : Keyboard) (key : Nat) : Keyboard :=
  { mask := k.mask ||| Keyboard.pow2 key }

/-- Source `Keyboard::set_up`: `self.0 ^= 2_u16.pow(key)` (an XOR, i.e. a
toggle of the key's bit). -/
def Keyboard.set_up (k : Keyboard) (key : Nat) : Keyboard :=
  { mask := k.mask ^^^ Keyboard.pow2 key }

/-- Source `Keyboard::is_down`: `self.0 & v == v` with `v = 2_u16.pow(key)`. -/
def Keyboard.is_down (k : Keyboard) (key : Nat) : Bool :=
  k.mask &&& Keyboard.pow2 key == Keyboard.pow2 key

/-- Source `Keyboard::reset`. -/
def Keyboard.reset (_ : Keyboard) : Keyboard := { mask := 0 }

/-- Source `enum Mode`. -/
inductive Mode where
  | Running : Mode
  | WaitForKey (register : Nat) : Mode
  | Paused : Mode
deriving DecidableEq

/-- Source `enum Instruction` (from `instructions.rs`). Register indexes are
`Fin 16` because the decoder only ever produces nibble values. -/
inductive Instruction where
  | Clear
  | Return
  | JumpToAddress (address : Nat)
  | ExecuteSubroutine (address : Nat)
  | StoreNumberInRegister (number : Nat) (register : Fin 16)
  | SetAddressRegister (address : Nat)
  | JumpOffsetV0 (address : Nat)
  | DrawSprite (register_x register_y : Fin 16) (len : Nat)
  | SkipIfRegisterEqTo (register : Fin 16) (value : Nat)
  | SkipIfRegisterNeqTo (register : Fin 16) (value : Nat)
  | SkipIfRegistersEq (register_x register_y : Fin 16)
  | AddToRegister (register : Fin 16) (value : Nat)
  | CopyRegister (register_x register_y : Fin 16)
  | OrRegisters (register_x register_y : Fin 16)
  | AndRegisters (register_x register_y : Fin 16)
  | XorRegisters (register_x register_y : Fin 16)
  | AddRegisters (register_x register_y : Fin 16)
  | SubRegisters (register_x register_y : Fin 16)
  | LeftShiftRegister (register_x register_y : Fin 16)
  | RightShiftRegister (register_x register_y : Fin 16)
  | SubRegistersOtherWayArround (register_x register_y : Fin 16)
  | SkipIfRegistersNeq (register_x register_y : Fin 16)
  | SkipIfKey (register_x : Fin 16)
  | SkipIfNotKey (register_x : Fin 16)
  | AddXtoI (register_x : Fin 16)
  | BinaryCodedDecimal (register_x : Fin 16)
  | SetDelayTimer (register_x : Fin 16)
  | ReadDelayTimer (register_x : Fin 16)
  | WaitForKey (register_x : Fin 16)
  | StoreRegisters (register_x : Fin 16)
  | LoadRegisters (register_x : Fin 16)
deriving DecidableEq

/-- Source `impl TryFrom<u16> for Instruction`. The error of the source carries
the raw word in its message ("unknown instruction 0x{value:X}"); here the error
value is the raw word itself. The source pattern-matches the four nibbles
`(a, b, c, d)` = `((value & 0xF000) >> 12, (value & 0x0F00) >> 8,
(value & 0x00F0) >> 4, value & 0x000F)` in order; the match is rendered as the
equivalent sequence of tests, with the nibbles written in the arithmetically
equal `/`-`%` form: `a` is `w / 4096 % 16`, `b` is `w / 256 % 16`, `c` is
`w / 16 % 16`, `d` is `w % 16`; `x`, `y` are the `b`, `c` nibbles as register
indexes; `read_address` is `w % 4096` (`& 0x0FFF`) and `read_byte_operand` is
`w % 256` (`& 0x00FF`). -/
def Instruction.tryFrom (w : Nat) : Except Nat Instruction :=
  if w / 4096 % 16 = 0x0 ∧ w / 256 % 16 = 0x0 ∧ w / 16 % 16 = 0xE ∧ w % 16 = 0x0 then
    .ok .Clear
  else if w / 4096 % 16 = 0x0 ∧ w / 256 % 16 = 0x0 ∧ w / 16 % 16 = 0xE ∧ w % 16 = 0xE then
    .ok .Return
  else if w / 4096 % 16 = 0x1 then .ok (.JumpToAddress (w % 4096))
  else if w / 4096 % 16 = 0x2 then .ok (.ExecuteSubroutine (w % 4096))
  else if w / 4096 % 16 = 0x3 then .ok (.SkipIfRegisterEqTo ⟨w / 256 % 16, by omega⟩ (w % 256))
  else if w / 4096 % 16 = 0x4 then .ok (.SkipIfRegisterNeqTo ⟨w / 256 % 16, by omega⟩ (w % 256))
  else if w / 4096 % 16 = 0x5 ∧ w % 16 = 0x0 then .ok (.SkipIfRegistersEq ⟨w / 256 % 16, by omega⟩ ⟨w / 16 % 16, by omega⟩)
  else if w / 4096 % 16 = 0x6 then .ok (.StoreNumberInRegister (w % 256) ⟨w / 256 % 16, by omega⟩)
  else if w / 4096 % 16 = 0x7 then .ok (.AddToRegister ⟨w / 256 % 16, by omega⟩ (w % 256))
  else if w / 4096 % 16 = 0x8 ∧ w % 16 = 0x0 then .ok (.CopyRegister ⟨w / 256 % 16, by omega⟩ ⟨w / 16 % 16, by omega⟩)
  else if w / 4096 % 16 = 0x8 ∧ w % 16 = 0x1 then .ok (.OrRegisters ⟨w / 256 % 16, by omega⟩ ⟨w / 16 % 16, by omega⟩)
  else if w / 4096 % 16 = 0x8 ∧ w % 16 = 0x2 then .ok (.AndRegisters ⟨w / 256 % 16, by omega⟩ ⟨w / 16 % 16, by omega⟩)
  else if w / 4096 % 16 = 0x8 ∧ w % 16 = 0x3 then .ok (.XorRegisters ⟨w / 256 % 16, by omega⟩ ⟨w / 16 % 16, by omega⟩)
  else if w / 4096 % 16 = 0x8 ∧ w % 16 = 0x4 then .ok (.AddRegisters ⟨w / 256 % 16, by omega⟩ ⟨w / 16 % 16, by omega⟩)
  else if w / 4096 % 16 = 0x8 ∧ w % 16 = 0x5 then .ok (.SubRegisters ⟨w / 256 % 16, by omega⟩ ⟨w / 16 % 16, by omega⟩)
  else if w / 4096 % 16 = 0x8 ∧ w % 16 = 0x6 then .ok (.RightShiftRegister ⟨w / 256 % 16, by omega⟩ ⟨w / 16 % 16, by omega⟩)
  else if w / 4096 % 16 = 0x8 ∧ w % 16 = 0x7 then .ok (.SubRegistersOtherWayArround ⟨w / 256 % 16, by omega⟩ ⟨w / 16 % 16, by omega⟩)
  else if w / 4096 % 16 = 0x8 ∧ w % 16 = 0xE then .ok (.LeftShiftRegister ⟨w / 256 % 16, by omega⟩ ⟨w / 16 % 16, by omega⟩)
  else if w / 4096 % 16 = 0x9 ∧ w % 16 = 0x0 then .ok (.SkipIfRegistersNeq ⟨w / 256 % 16, by omega⟩ ⟨w / 16 % 16, by omega⟩)
  else if w / 4096 % 16 = 0xA then .ok (.SetAddressRegister (w % 4096))
  else if w / 4096 % 16 = 0xB then .ok (.JumpOffsetV0 (w % 4096))
  else if w / 4096 % 16 = 0xD then .ok (.DrawSprite ⟨w / 256 % 16, by omega⟩ ⟨w / 16 % 16, by omega⟩ (w % 16))
  else if w / 4096 % 16 = 0xE ∧ w / 16 % 16 = 0x9 ∧ w % 16 = 0xE then .ok (.SkipIfKey ⟨w / 256 % 16, by omega⟩)
  else if w / 4096 % 16 = 0xE ∧ w / 16 % 16 = 0xA ∧ w % 16 = 0x1 then .ok (.SkipIfNotKey ⟨w / 256 % 16, by omega⟩)
  else if w / 4096 % 16 = 0xF ∧ w / 16 % 16 = 0x0 ∧ w % 16 = 0x7 then .ok (.ReadDelayTimer ⟨w / 256 % 16, by omega⟩)
  else if w / 4096 % 16 = 0xF ∧ w / 16 % 16 = 0x0 ∧ w % 16 = 0xA then .ok (.WaitForKey ⟨w / 256 % 16, by omega⟩)
  else if w / 4096 % 16 = 0xF ∧ w / 16 % 16 = 0x1 ∧ w % 16 = 0x5 then .ok (.SetDelayTimer ⟨w / 256 % 16, by omega⟩)
  else if w / 4096 % 16 = 0xF ∧ w / 16 % 16 = 0x1 ∧ w % 16 = 0xE then .ok (.AddXtoI ⟨w / 256 % 16, by omega⟩)
  else if w / 4096 % 16 = 0xF ∧ w / 16 % 16 = 0x5 ∧ w % 16 = 0x5 then .ok (.StoreRegisters ⟨w / 256 % 16, by omega⟩)
  else if w / 4096 % 16 = 0xF ∧ w / 16 % 16 = 0x6 ∧ w % 16 = 0x5 then .ok (.LoadRegisters ⟨w / 256 % 16, by omega⟩)
  else if w / 4096 % 16 = 0xF ∧ w / 16 % 16 = 0x3 ∧ w % 16 = 0x3 then .ok (.BinaryCodedDecimal ⟨w / 256 % 16, by omega⟩)
  else .error w

/-- Source `struct Chip8`. Memory is a total function on addresses (the
4096-byte bound of the source array is enforced by explicit checks at every
access the source performs), vram likewise (2048 cells, `64 * y + x`). -/
structure Chip8 where
  memory : Nat → Nat
  registers : Fin 16 → Nat
  pc : Nat
  address_register : Nat
  vram : Nat → Nat
  stack : List Nat
  keyboard : Keyboard
  delay_timer : Nat
  redraw : Bool
  mode : Mode

/-- Source free function `vram_index`: `None` outside the 64x32 screen,
otherwise `DISPLAY_WIDTH * y + x`. -/
def vram_index (x y : Nat) : Option Nat :=
  if 64 ≤ x ∨ 32 ≤ y then none else some (64 * y + x)

/-- Source free function `set_pixel`: does nothing when the coordinate is
outside the screen bounds; stores `u8::from(pixel)`. -/
def set_pixel (vram : Nat → Nat) (x y : Nat) (pixel : Bool) : Nat → Nat :=
  match vram_index x y with
  | some i => Function.update vram i (if pixel then 1 else 0)
  | none => vram

/-- Source free function `get_pixel`. -/
def get_pixel (vram : Nat → Nat) (x y : Nat) : Option Nat :=
  (vram_index x y).map vram

/-- The sprite-pixel extraction `u8::from(row & 2_u8.pow(i) == 2_u8.pow(i))`. -/
def bitOf (row k : Nat) : Nat :=
  if row &&& 2 ^ k = 2 ^ k then 1 else 0

/-- One iteration of the inner DrawSprite loop body: reads the old pixel, XORs
the sprite bit in, writes it back, and raises the collision flag when a set
pixel was cleared. Out-of-bounds targets are silently dropped. The pair is
(vram, collision flag accumulator for register 0xF). -/
def drawPixel (v : Nat → Nat) (vf : Nat) (x y bit : Nat) : (Nat → Nat) × Nat :=
  match get_pixel v x y with
  | some old =>
      let new_pixel := old ^^^ bit
      (set_pixel v x y (new_pixel == 1), if old = 1 ∧ new_pixel = 0 then 1 else vf)
  | none => (v, vf)

/-- The inner loop `for i in (0..8).rev()` of DrawSprite, with `k` the number
of bits still to draw: bit `k-1` is drawn at column `x`, then `k-2` at `x+1`,
and so on. Called with `k = 8`. -/
def drawRowAux (row x y : Nat) (k : Nat) (st : (Nat → Nat) × Nat) : (Nat → Nat) × Nat :=
  match k with
  | 0 => st
  | Nat.succ k => drawRowAux row (x + 1) y k (drawPixel st.1 st.2 x y (bitOf row k))

/-- The outer loop `for row in sprite` of DrawSprite: each row byte is drawn at
column `sx`, and `y` advances by one per row. -/
def drawRows (rows : List Nat) (sx y : Nat) (st : (Nat → Nat) × Nat) : (Nat → Nat) × Nat :=
  match rows with
  | [] => st
  | row :: rest => drawRows rest sx (y + 1) (drawRowAux row sx y 8 st)

/-- The DrawSprite start column: `Vx`, reduced `% DISPLAY_WIDTH` only when it
starts outside the visible area (source lines 156-163). -/
def drawStartX (s : Chip8) (x : Fin 16) : Nat :=
  if s.registers x > 0x3F then s.registers x % 64 else s.registers x

/-- The DrawSprite start row: `Vy`, reduced `% DISPLAY_HEIGHT` only when it
starts outside the visible area (source lines 164-168). -/
def drawStartY (s : Chip8) (y : Fin 16) : Nat :=
  if s.registers y > 0x1F then s.registers y % 32 else s.registers y

/-- Source `Chip8::execute_instruction`. An `Except.error msg` models a Rust
panic (out-of-bounds indexing/slicing, or the `expect` on `Return`); the
message strings follow the source. The match arms for the enum variants that
`instructions.rs` does not declare (`LoadFontCharacter`, `RandomNumber`) do not
exist here, exactly as no decoded instruction can reach them. -/
def execute_instruction (s : Chip8) (instruction : Instruction) : Except String Chip8 :=
  match instruction with
  | .Clear =>
      .ok { s with vram := fun _ => 0, redraw := true }
  | .JumpToAddress address =>
      .ok { s with pc := address }
  | .StoreNumberInRegister number register =>
      .ok { s with registers := Function.update s.registers register number }
  | .SetAddressRegister address =>
      .ok { s with address_register := address }
  | .DrawSprite register_x register_y len =>
      let start_x := drawStartX s register_x
      let start_y := drawStartY s register_y
      let lo := s.address_register
      let hi := lo + len
      -- `&self.memory[lo..hi]` bounds-check panics when `hi > 4096`
      if hi ≤ 4096 then
        let sprite := (List.range len).map fun r => s.memory (lo + r)
        -- `self.registers[0xF] = 0x00` before the loop: the accumulator starts at 0
        let res := drawRows sprite start_x start_y (s.vram, 0)
        .ok { s with
                vram := res.1,
                registers := (Function.update s.registers 15 res.2),
                redraw := true }
      else .error "range end index out of range for slice"
  | .SkipIfRegisterEqTo register value =>
      .ok (if s.registers register = value then { s with pc := s.pc + 2 } else s)
  | .SkipIfRegisterNeqTo register value =>
      .ok (if s.registers register ≠ value then { s with pc := s.pc + 2 } else s)
  | .SkipIfRegistersEq register_x register_y =>
      .ok (if s.registers register_x = s.registers register_y then { s with pc := s.pc + 2 } else s)
  | .AddToRegister register value =>
      -- `wrapping_add`
      .ok { s with registers := (Function.update s.registers register
              ((s.registers register + value) % 256)) }
  | .SkipIfRegistersNeq register_x register_y =>
      .ok (if s.registers register_x ≠ s.registers register_y then { s with pc := s.pc + 2 } else s)
  | .ExecuteSubroutine address =>
      .ok { s with stack := s.pc :: s.stack, pc := address }
  | .Return =>
      -- `self.stack.pop().expect("Can't return when stack is empty")`
      match s.stack with
      | [] => .error "Can't return when stack is empty"
      | address :: rest => .ok { s with pc := address, stack := rest }
  | .CopyRegister register_x register_y =>
      .ok { s with registers := Function.update s.registers register_x (s.registers register_y) }
  | .OrRegisters register_x register_y =>
      .ok { s with registers := (Function.update
              (Function.update s.registers register_x
                (s.registers register_x ||| s.registers register_y)) 15 0) }
  | .AndRegisters register_x register_y =>
      .ok { s with registers := (Function.update
              (Function.update s.registers register_x
                (s.registers register_x &&& s.registers register_y)) 15 0) }
  | .XorRegisters register_x register_y =>
      .ok { s with registers := (Function.update
              (Function.update s.registers register_x
                (s.registers register_x ^^^ s.registers register_y)) 15 0) }
  | .AddRegisters register_x register_y =>
      -- the sum is computed in u16, the store truncates (`result as u8`),
      -- and the carry is written to 0xF afterwards
      let result := s.registers register_x + s.registers register_y
      let carry := result > 255
      .ok { s with registers := (Function.update
              (Function.update s.registers register_x (result % 256)) 15
              (if carry then 1 else 0)) }
  | .SubRegisters register_x register_y =>
      -- `x - y` on u8: modulo-256 wraparound (release profile); register
      -- values are always < 256 in any state the source can build
      let xv := s.registers register_x
      let yv := s.registers register_y
      let result := (xv + (256 - yv % 256)) % 256
      let borrow := yv > xv
      .ok { s with registers := (Function.update
              (Function.update s.registers register_x result) 15
              (if borrow then 0 else 1)) }
  | .SubRegistersOtherWayArround register_x register_y =>
      let xv := s.registers register_x
      let yv := s.registers register_y
      let result := (yv + (256 - xv % 256)) % 256
      let borrow := xv > yv
      .ok { s with registers := (Function.update
              (Function.update s.registers register_x result) 15
              (if borrow then 0 else 1)) }
  | .LeftShiftRegister register_x register_y =>
      let value := s.registers register_y
      let vf_temp := value &&& 128
      .ok { s with registers := (Function.update
              (Function.update s.registers register_x (value <<< 1 % 256)) 15
              (if vf_temp = 128 then 1 else 0)) }
  | .RightShiftRegister register_x register_y =>
      let value := s.registers register_y
      let vf_temp := value &&& 1
      .ok { s with registers := (Function.update
              (Function.update s.registers register_x (value >>> 1)) 15
              (if vf_temp = 1 then 1 else 0)) }
  | .StoreRegisters register_x =>
      -- `self.memory[self.address_register + i]` for i in 0..=x panics as soon
      -- as an index reaches 4096
      if s.address_register + register_x.val < 4096 then
        .ok { s with
                memory := ((List.range (register_x.val + 1)).foldl
                  (fun m i => Function.update m (s.address_register + i)
                    (s.registers ⟨i % 16, by omega⟩)) s.memory),
                address_register := (s.address_register + register_x.val + 1) % 65536 }
      else .error "index out of bounds"
  | .LoadRegisters register_x =>
      if s.address_register + register_x.val < 4096 then
        .ok { s with
                registers := ((List.range (register_x.val + 1)).foldl
                  (fun r i => Function.update r ⟨i % 16, by omega⟩
                    (s.memory (s.address_register + i))) s.registers),
                address_register := (s.address_register + register_x.val + 1) % 65536 }
      else .error "index out of bounds"
  | .BinaryCodedDecimal register_x =>
      let value := s.registers register_x
      if s.address_register + 2 < 4096 then
        .ok { s with memory := (Function.update
                (Function.update
                  (Function.update s.memory s.address_register (value / 100))
                  (s.address_register + 1) (value % 100 / 10))
                (s.address_register + 2) (value % 10)) }
      else .error "index out of bounds"
  | .AddXtoI register_x =>
      .ok { s with address_register := (s.address_register + s.registers register_x) % 65536 }
  | .SetDelayTimer register_x =>
      .ok { s with delay_timer := s.registers register_x }
  | .ReadDelayTimer register_x =>
      .ok { s with registers := Function.update s.registers register_x s.delay_timer }
  | .SkipIfKey register_x =>
      .ok (if s.keyboard.is_down (s.registers register_x) then { s with pc := s.pc + 2 } else s)
  | .SkipIfNotKey register_x =>
      .ok (if s.keyboard.is_down (s.registers register_x) then s else { s with pc := s.pc + 2 })
  | .WaitForKey register_x =>
      .ok { s with mode := .WaitForKey register_x.val }
  | .JumpOffsetV0 address =>
      -- `(address + u16::from(self.registers[0x00])) as usize`; the u16 sum of
      -- a 12-bit address and a byte cannot overflow
      .ok { s with pc := address + s.registers 0 }

/-- The 16-bit instruction word fetched at `pc`:
`u16::from(memory[pc]) << 8 | u16::from(memory[pc + 1])`. -/
def fetchWord (s : Chip8) : Nat :=
  s.memory s.pc <<< 8 ||| s.memory (s.pc + 1)

/-- Outcome of one `step_cycle` (or of the fetch half). `ok` is the
`Ok(instruction)` return with the final state, `err` is the anyhow decode
error (`unknown instruction`, carrying the raw word) with the state as the
mutated `self` was left, and `fatal` is a Rust panic, which aborts the step
with no surviving state. -/
inductive StepResult where
  | ok (instruction : Instruction) (s : Chip8) : StepResult
  | err (word : Nat) (s : Chip8) : StepResult
  | fatal (msg : String) : StepResult

/-- Source `Chip8::fetch_and_decode_instruction`: reads the word at `pc`
(bounds-check panic when `pc + 1 ≥ 4096`), advances `pc` by 2, then decodes.
A decode failure is returned as an error, the pc advance having happened. -/
def fetch_and_decode_instruction (s : Chip8) : StepResult :=
  if s.pc + 1 < 4096 then
    let w := fetchWord s
    let s' := { s with pc := s.pc + 2 }
    match Instruction.tryFrom w with
    | .ok i => .ok i s'
    | .error w' => .err w' s'
  else .fatal "index out of bounds"

/-- Source `Chip8::step_cycle`: fetch/decode, propagate a decode error with
`?`, execute, and return the instruction. -/
def step_cycle (s : Chip8) : StepResult :=
  match fetch_and_decode_instruction s with
  | .fatal msg => .fatal msg
  | .err w s' => .err w s'
  | .ok i s' =>
      match execute_instruction s' i with
      | .ok s'' => .ok i s''
      | .error msg => .fatal msg

/-! Concrete states used by witnesses and counterexamples. -/

/-- A freshly zeroed machine (registers, vram and memory all zero, empty
stack), standing for `Chip8::new` without the font table. -/
def chipBase : Chip8 :=
  { memory := fun _ => 0, registers := fun _ => 0, pc := 0x200, address_register := 0,
    vram := fun _ => 0, stack := [], keyboard := ⟨0⟩, delay_timer := 0, redraw := false,
    mode := .Running }

/-- State with `VF = 5`, `V0 = 3` (for the 8xy5 x = 0xF corner). -/
def cSubCx : Chip8 :=
  { chipBase with registers := fun i => if i.val = 15 then 5 else if i.val = 0 then 3 else 0 }

/-- State with `V1 = 3`, `V2 = 5` (an underflowing subtraction). -/
def cSubW : Chip8 :=
  { chipBase with registers := fun i => if i.val = 1 then 3 else if i.val = 2 then 5 else 0 }

/-- State with `VF = 1`, `V0 = 2` (for the 8xy4 x = 0xF corner). -/
def cAddCx : Chip8 :=
  { chipBase with registers := fun i => if i.val = 15 then 1 else if i.val = 0 then 2 else 0 }

/-- State with `V1 = 200`, `V2 = 100` (a carrying addition). -/
def cAddW : Chip8 :=
  { chipBase with registers := fun i => if i.val = 1 then 200 else if i.val = 2 then 100 else 0 }

/-- State with `V2 = 129` (both shift-out bits set). -/
def cShiftW : Chip8 :=
  { chipBase with registers := fun i => if i.val = 2 then 129 else 0 }

/-- State whose word at the initial pc is 0x00EE (Return) and whose call stack
is empty. -/
def cRetCx : Chip8 :=
  { chipBase with memory := fun i => if i = 0x201 then 0xEE else 0 }

/-- State with a one-byte 0xFF sprite at memory address 0 (I = 0). -/
def cDrawW : Chip8 :=
  { chipBase with memory := fun i => if i = 0 then 0xFF else 0 }

/-- The state after drawing the 0xFF sprite of `cDrawW` once at (0,0). -/
def cDrawn : Chip8 :=
  (execute_instruction cDrawW (.DrawSprite 0 1 1)).toOption.getD chipBase

/-- State with `I = 4095`, so a 2-byte sprite read overruns memory. -/
def cOobDraw : Chip8 :=
  { chipBase with address_register := 4095 }

/-- State with `I = 4094`, so the BCD write at I+2 overruns memory. -/
def cOobBcd : Chip8 :=
  { chipBase with address_register := 4094 }

/-- The bit DrawSprite XORs into display cell (cx, cy): the sprite row/column
bit when (cx, cy) lies in the 8-wide, n-tall target rectangle anchored at the
(start-wrapped) coordinates, else 0 ("high bit first": column `sx` receives
bit 7). -/
def spriteBit (s : Chip8) (x y : Fin 16) (n cx cy : Nat) : Nat :=
  if drawStartY s y ≤ cy ∧ cy < drawStartY s y + n ∧
      drawStartX s x ≤ cx ∧ cx < drawStartX s x + 8 then
    bitOf (s.memory (s.address_register + (cy - drawStartY s y))) (7 - (cx - drawStartX s x))
  else 0

/-! Claim theorems. -/

/-- C6: for all register indices x,y and every prior value of register 0xF,
after executing Or (8xy1), And (8xy2) or Xor (8xy3), register 0xF equals 0
(the documented flag-clearing quirk). -/
theorem bitwise_ops_clear_flag (s : Chip8) (x y : Fin 16) :
    (∃ s', execute_instruction s (.OrRegisters x y) = .ok s' ∧ s'.registers 15 = 0) ∧
    (∃ s', execute_instruction s (.AndRegisters x y) = .ok s' ∧ s'.registers 15 = 0) ∧
    (∃ s', execute_instruction s (.XorRegisters x y) = .ok s' ∧ s'.registers 15 = 0) := by
  refine ⟨⟨_, rfl, ?_⟩, ⟨_, rfl, ?_⟩, ⟨_, rfl, ?_⟩⟩ <;>
    simp [execute_instruction, Function.update_same]

/-- C1 (amended): SubRegisters (8xy5) with Vx = a, Vy = b stores
(a - b) mod 256 into Vx and afterwards writes the no-borrow flag
(1 iff a ≥ b) to VF; the stored difference is observable whenever x ≠ 0xF,
while for x = 0xF the subsequent flag write overwrites it. -/
theorem subRegisters_wraps_and_flags (s : Chip8) (x y : Fin 16) (a b : Nat)
    (hxa : s.registers x = a) (hyb : s.registers y = b) (_ha : a < 256) (_hb : b < 256) :
    ∃ s', execute_instruction s (.SubRegisters x y) = .ok s' ∧
      s'.registers 15 = (if b ≤ a then 1 else 0) ∧
      (x ≠ 15 → (s'.registers x : Int) = ((a : Int) - (b : Int)) % 256) := by
  refine ⟨_, rfl, ?_, ?_⟩
  · simp only [hxa, hyb, Function.update_same]
    split_ifs <;> omega
  · intro hx
    simp only [hxa, hyb, Function.update_noteq hx, Function.update_same]
    omega

/-- C1 counterexample: with x = 0xF (VF = a = 5, V0 = b = 3) the final value of
Vx is the borrow flag 1, not (5 - 3) mod 256 = 2; the claim as stated
(quantified over all register indices x) fails at x = 0xF. -/
theorem subRegisters_claim_fails_at_xF :
    ¬ ∃ s', execute_instruction cSubCx (.SubRegisters 15 0) = .ok s' ∧
        (s'.registers 15 : Int) = ((5 : Int) - 3) % 256 := by
  rintro ⟨s', h, hv⟩
  have he : execute_instruction cSubCx (.SubRegisters 15 0) =
      .ok { cSubCx with registers := (Function.update
              (Function.update cSubCx.registers 15 ((5 + (256 - 3 % 256)) % 256)) 15
              (if (3:Nat) > 5 then 0 else 1)) } := rfl
  rw [he] at h
  obtain rfl : _ = s' := Except.ok.inj h
  simp only [Function.update_same] at hv
  norm_num at hv

/-- C1 witness: an underflowing subtraction V1 = 3 minus V2 = 5 wraps to 254
and clears VF. -/
theorem subRegisters_wraps_and_flags_witness :
    cSubW.registers 1 = 3 ∧ cSubW.registers 2 = 5 ∧ (3 : Nat) < 256 ∧ (5 : Nat) < 256 ∧
    ∃ s', execute_instruction cSubW (.SubRegisters 1 2) = .ok s' ∧
      s'.registers 15 = (if (5:Nat) ≤ 3 then 1 else 0) ∧
      ((1 : Fin 16) ≠ 15 → (s'.registers 1 : Int) = ((3 : Int) - (5 : Int)) % 256) :=
  ⟨rfl, rfl, by omega, by omega,
    subRegisters_wraps_and_flags cSubW 1 2 3 5 rfl rfl (by omega) (by omega)⟩

/-- C4 (amended): AddRegisters (8xy4) with Vx = a, Vy = b stores
(a + b) mod 256 into Vx and afterwards writes the carry (1 iff a + b > 255)
to VF; the stored sum is observable whenever x ≠ 0xF, while for x = 0xF the
subsequent carry write overwrites it. -/
theorem addRegisters_wraps_and_carries (s : Chip8) (x y : Fin 16) (a b : Nat)
    (hxa : s.registers x = a) (hyb : s.registers y = b) (_ha : a < 256) (_hb : b < 256) :
    ∃ s', execute_instruction s (.AddRegisters x y) = .ok s' ∧
      s'.registers 15 = (if 255 < a + b then 1 else 0) ∧
      (x ≠ 15 → s'.registers x = (a + b) % 256) := by
  refine ⟨_, rfl, ?_, ?_⟩
  · simp only [hxa, hyb, Function.update_same]
  · intro hx
    simp only [hxa, hyb, Function.update_noteq hx, Function.update_same]

/-- C4 counterexample: with x = 0xF (VF = a = 1, V0 = b = 2) the final value of
Vx is the carry 0, not (1 + 2) mod 256 = 3; the claim as stated fails at
x = 0xF. -/
theorem addRegisters_claim_fails_at_xF :
    ¬ ∃ s', execute_instruction cAddCx (.AddRegisters 15 0) = .ok s' ∧
        s'.registers 15 = (1 + 2) % 256 := by
  rintro ⟨s', h, hv⟩
  have he : execute_instruction cAddCx (.AddRegisters 15 0) =
      .ok { cAddCx with registers := (Function.update
              (Function.update cAddCx.registers 15 ((1 + 2) % 256)) 15
              (if (1 + 2 : Nat) > 255 then 1 else 0)) } := rfl
  rw [he] at h
  obtain rfl : _ = s' := Except.ok.inj h
  simp only [Function.update_same] at hv
  norm_num at hv

/-- C4 witness: V1 = 200 plus V2 = 100 stores 44 and sets the carry. -/
theorem addRegisters_wraps_and_carries_witness :
    cAddW.registers 1 = 200 ∧ cAddW.registers 2 = 100 ∧ (200 : Nat) < 256 ∧ (100 : Nat) < 256 ∧
    ∃ s', execute_instruction cAddW (.AddRegisters 1 2) = .ok s' ∧
      s'.registers 15 = (if 255 < 200 + 100 then 1 else 0) ∧
      ((1 : Fin 16) ≠ 15 → s'.registers 1 = (200 + 100) % 256) :=
  ⟨rfl, rfl, by omega, by omega,
    addRegisters_wraps_and_carries cAddW 1 2 200 100 rfl rfl (by omega) (by omega)⟩

/-- Auxiliary: the low bit mask `v &&& 1` is `v % 2`. -/
theorem and_one_eq_mod (v : Nat) : v &&& 1 = v % 2 :=
  Nat.and_one_is_mod v

/-- Auxiliary: for a byte value, testing the 0x80 mask is the top bit `v / 128`. -/
theorem and_128_eq (v : Nat) (hv : v < 256) :
    (if v &&& 128 = 128 then (1:Nat) else 0) = v / 128 := by
  have h := Nat.and_two_pow v 7
  rw [Nat.testBit_to_div_mod] at h
  norm_num at h
  rcases (by omega : v / 128 = 0 ∨ v / 128 = 1) with h0 | h0 <;> rw [h0] at h ⊢ <;> simp [h]

/-- C5: ShiftRight (8xy6) / ShiftLeft (8xyE) store register y's value shifted
one bit into register x and write the shifted-out bit of register y's original
value (LSB resp. MSB) to register 0xF afterwards — the flag is computed before
register x is overwritten, so it is correct even when x = y, and the flag write
is last, so for x = 0xF the flag is what remains in Vx. -/
theorem shifts_use_vy_and_flag_shifted_out_bit (s : Chip8) (x y : Fin 16)
    (hv : s.registers y < 256) :
    (∃ s', execute_instruction s (.RightShiftRegister x y) = .ok s' ∧
      s'.registers 15 = s.registers y % 2 ∧
      (x ≠ 15 → s'.registers x = s.registers y / 2)) ∧
    (∃ s', execute_instruction s (.LeftShiftRegister x y) = .ok s' ∧
      s'.registers 15 = s.registers y / 128 ∧
      (x ≠ 15 → s'.registers x = s.registers y * 2 % 256)) := by
  constructor
  · refine ⟨_, rfl, ?_, ?_⟩
    · simp only [Function.update_same, and_one_eq_mod]
      split_ifs <;> omega
    · intro hx
      simp only [Function.update_noteq hx, Function.update_same, Nat.shiftRight_eq_div_pow,
        pow_one]
  · refine ⟨_, rfl, ?_, ?_⟩
    · simp only [Function.update_same]
      rw [and_128_eq _ hv]
    · intro hx
      simp only [Function.update_noteq hx, Function.update_same, Nat.shiftLeft_eq, pow_one]

/-- C5 witness: with V2 = 129, right shift into V1 gives V1 = 64 and VF = 1,
left shift gives V1 = 2 and VF = 1. -/
theorem shifts_use_vy_and_flag_shifted_out_bit_witness :
    cShiftW.registers 2 < 256 ∧
    ((∃ s', execute_instruction cShiftW (.RightShiftRegister 1 2) = .ok s' ∧
      s'.registers 15 = cShiftW.registers 2 % 2 ∧
      ((1 : Fin 16) ≠ 15 → s'.registers 1 = cShiftW.registers 2 / 2)) ∧
    (∃ s', execute_instruction cShiftW (.LeftShiftRegister 1 2) = .ok s' ∧
      s'.registers 15 = cShiftW.registers 2 / 128 ∧
      ((1 : Fin 16) ≠ 15 → s'.registers 1 = cShiftW.registers 2 * 2 % 256))) :=
  ⟨by norm_num [cShiftW, chipBase],
    shifts_use_vy_and_flag_shifted_out_bit cShiftW 1 2 (by norm_num [cShiftW, chipBase])⟩

/-- C7 (code bug): the claim says `set_up` clears the key's bit regardless of
its prior state, but the source implements it with XOR, which toggles: on an
all-up keyboard, `set_up(0)` presses key 0, so `is_down(0)` returns true. -/
theorem keyboard_set_up_toggles_instead_of_clearing :
    ((Keyboard.mk 0).set_up 0).is_down 0 = true := by decide

/-- Auxiliary (C2): whenever the word at pc is 00EE and the call stack is
empty, the step aborts through the `expect` panic with the message "Can't
return when stack is empty"; it is not returned as an error value the way a
decode failure is, and it does not silently continue at pc = 0. -/
theorem return_on_empty_stack_panics (s : Chip8)
    (hpc : s.pc + 1 < 4096) (hw : fetchWord s = 0x00EE) (hs : s.stack = []) :
    step_cycle s = .fatal "Can't return when stack is empty" := by
  have hdec : Instruction.tryFrom 0x00EE = .ok .Return := rfl
  unfold step_cycle fetch_and_decode_instruction
  rw [if_pos hpc]
  simp only [hw, hdec]
  unfold execute_instruction
  rw [hs]

/-- C2 (code bug): on the concrete machine whose word at pc is 00EE and whose
stack is empty, `step_cycle` ends in the panic outcome (the `expect` abort)
instead of surfacing a stack-underflow error value distinctly from the decode
error channel, as the claim and the spec's error-handling design require; the
step does abort rather than silently continue at pc = 0. -/
theorem return_on_empty_stack_claim_panic : 
    step_cycle cRetCx = .fatal "Can't return when stack is empty" := by
  have h1 : cRetCx.pc + 1 < 4096 := by norm_num [cRetCx, chipBase]
  have h2 : fetchWord cRetCx = 0x00EE := by norm_num [fetchWord, cRetCx, chipBase]
  exact return_on_empty_stack_panics cRetCx h1 h2 rfl

/-- Witness for the auxiliary panic lemma at the concrete state `cRetCx`. -/
theorem return_on_empty_stack_panics_witness :
    (cRetCx.pc + 1 < 4096 ∧ fetchWord cRetCx = 0x00EE ∧ cRetCx.stack = []) ∧
    step_cycle cRetCx = .fatal "Can't return when stack is empty" :=
  ⟨⟨by norm_num [cRetCx, chipBase], by norm_num [fetchWord, cRetCx, chipBase], rfl⟩,
    return_on_empty_stack_panics cRetCx (by norm_num [cRetCx, chipBase])
      (by norm_num [fetchWord, cRetCx, chipBase]) rfl⟩

set_option maxHeartbeats 1000000 in
/-- Auxiliary: the decoder's failure value always carries the raw word. -/
theorem tryFrom_error_carries_word {w e : Nat}
    (h : Instruction.tryFrom w = .error e) : e = w := by
  unfold Instruction.tryFrom at h
  by_cases hc1 : w / 4096 % 16 = 0 ∧ w / 256 % 16 = 0 ∧ w / 16 % 16 = 14 ∧ w % 16 = 0
  · rw [if_pos hc1] at h
    exact Except.noConfusion h
  · rw [if_neg hc1] at h
    by_cases hc2 : w / 4096 % 16 = 0 ∧ w / 256 % 16 = 0 ∧ w / 16 % 16 = 14 ∧ w % 16 = 14
    · rw [if_pos hc2] at h
      exact Except.noConfusion h
    · rw [if_neg hc2] at h
      by_cases hc3 : w / 4096 % 16 = 1
      · rw [if_pos hc3] at h
        exact Except.noConfusion h
      · rw [if_neg hc3] at h
        by_cases hc4 : w / 4096 % 16 = 2
        · rw [if_pos hc4] at h
          exact Except.noConfusion h
        · rw [if_neg hc4] at h
          by_cases hc5 : w / 4096 % 16 = 3
          · rw [if_pos hc5] at h
            exact Except.noConfusion h
          · rw [if_neg hc5] at h
            by_cases hc6 : w / 4096 % 16 = 4
            · rw [if_pos hc6] at h
              exact Except.noConfusion h
            · rw [if_neg hc6] at h
              by_cases hc7 : w / 4096 % 16 = 5 ∧ w % 16 = 0
              · rw [if_pos hc7] at h
                exact Except.noConfusion h
              · rw [if_neg hc7] at h
                by_cases hc8 : w / 4096 % 16 = 6
                · rw [if_pos hc8] at h
                  exact Except.noConfusion h
                · rw [if_neg hc8] at h
                  by_cases hc9 : w / 4096 % 16 = 7
                  · rw [if_pos hc9] at h
                    exact Except.noConfusion h
                  · rw [if_neg hc9] at h
                    by_cases hc10 : w / 4096 % 16 = 8 ∧ w % 16 = 0
                    · rw [if_pos hc10] at h
                      exact Except.noConfusion h
                    · rw [if_neg hc10] at h
                      by_cases hc11 : w / 4096 % 16 = 8 ∧ w % 16 = 1
                      · rw [if_pos hc11] at h
                        exact Except.noConfusion h
                      · rw [if_neg hc11] at h
                        by_cases hc12 : w / 4096 % 16 = 8 ∧ w % 16 = 2
                        · rw [if_pos hc12] at h
                          exact Except.noConfusion h
                        · rw [if_neg hc12] at h
                          by_cases hc13 : w / 4096 % 16 = 8 ∧ w % 16 = 3
                          · rw [if_pos hc13] at h
                            exact Except.noConfusion h
                          · rw [if_neg hc13] at h
                            by_cases hc14 : w / 4096 % 16 = 8 ∧ w % 16 = 4
                            · rw [if_pos hc14] at h
                              exact Except.noConfusion h
                            · rw [if_neg hc14] at h
                              by_cases hc15 : w / 4096 % 16 = 8 ∧ w % 16 = 5
                              · rw [if_pos hc15] at h
                                exact Except.noConfusion h
                              · rw [if_neg hc15] at h
                                by_cases hc16 : w / 4096 % 16 = 8 ∧ w % 16 = 6
                                · rw [if_pos hc16] at h
                                  exact Except.noConfusion h
                                · rw [if_neg hc16] at h
                                  by_cases hc17 : w / 4096 % 16 = 8 ∧ w % 16 = 7
                                  · rw [if_pos hc17] at h
                                    exact Except.noConfusion h
                                  · rw [if_neg hc17] at h
                                    by_cases hc18 : w / 4096 % 16 = 8 ∧ w % 16 = 14
                                    · rw [if_pos hc18] at h
                                      exact Except.noConfusion h
                                    · rw [if_neg hc18] at h
                                      by_cases hc19 : w / 4096 % 16 = 9 ∧ w % 16 = 0
                                      · rw [if_pos hc19] at h
                                        exact Except.noConfusion h
                                      · rw [if_neg hc19] at h
                                        by_cases hc20 : w / 4096 % 16 = 10
                                        · rw [if_pos hc20] at h
                                          exact Except.noConfusion h
                                        · rw [if_neg hc20] at h
                                          by_cases hc21 : w / 4096 % 16 = 11
                                          · rw [if_pos hc21] at h
                                            exact Except.noConfusion h
                                          · rw [if_neg hc21] at h
                                            by_cases hc22 : w / 4096 % 16 = 13
                                            · rw [if_pos hc22] at h
                                              exact Except.noConfusion h
                                            · rw [if_neg hc22] at h
                                              by_cases hc23 : w / 4096 % 16 = 14 ∧ w / 16 % 16 = 9 ∧ w % 16 = 14
                                              · rw [if_pos hc23] at h
                                                exact Except.noConfusion h
                                              · rw [if_neg hc23] at h
                                                by_cases hc24 : w / 4096 % 16 = 14 ∧ w / 16 % 16 = 10 ∧ w % 16 = 1
                                                · rw [if_pos hc24] at h
                                                  exact Except.noConfusion h
                                                · rw [if_neg hc24] at h
                                                  by_cases hc25 : w / 4096 % 16 = 15 ∧ w / 16 % 16 = 0 ∧ w % 16 = 7
                                                  · rw [if_pos hc25] at h
                                                    exact Except.noConfusion h
                                                  · rw [if_neg hc25] at h
                                                    by_cases hc26 : w / 4096 % 16 = 15 ∧ w / 16 % 16 = 0 ∧ w % 16 = 10
                                                    · rw [if_pos hc26] at h
                                                      exact Except.noConfusion h
                                                    · rw [if_neg hc26] at h
                                                      by_cases hc27 : w / 4096 % 16 = 15 ∧ w / 16 % 16 = 1 ∧ w % 16 = 5
                                                      · rw [if_pos hc27] at h
                                                        exact Except.noConfusion h
                                                      · rw [if_neg hc27] at h
                                                        by_cases hc28 : w / 4096 % 16 = 15 ∧ w / 16 % 16 = 1 ∧ w % 16 = 14
                                                        · rw [if_pos hc28] at h
                                                          exact Except.noConfusion h
                                                        · rw [if_neg hc28] at h
                                                          by_cases hc29 : w / 4096 % 16 = 15 ∧ w / 16 % 16 = 5 ∧ w % 16 = 5
                                                          · rw [if_pos hc29] at h
                                                            exact Except.noConfusion h
                                                          · rw [if_neg hc29] at h
                                                            by_cases hc30 : w / 4096 % 16 = 15 ∧ w / 16 % 16 = 6 ∧ w % 16 = 5
                                                            · rw [if_pos hc30] at h
                                                              exact Except.noConfusion h
                                                            · rw [if_neg hc30] at h
                                                              by_cases hc31 : w / 4096 % 16 = 15 ∧ w / 16 % 16 = 3 ∧ w % 16 = 3
                                                              · rw [if_pos hc31] at h
                                                                exact Except.noConfusion h
                                                              · rw [if_neg hc31] at h
                                                                exact (Except.error.inj h).symm

/-- C8: a DrawSprite read of n bytes at I that would overrun the 4096-byte
memory (I + n > 4096), or a BCD write at I, I+1, I+2 that would (I + 2 ≥ 4096),
is stopped by the bounds check and surfaces as an explicit error outcome (the
Rust bounds-check panic) instead of any wrapped-around memory access. -/
theorem oob_sprite_read_and_bcd_write_are_checked (s t : Chip8) (x y xr : Fin 16) (n : Nat)
    (hdraw : 4096 < s.address_register + n) (hbcd : 4096 ≤ t.address_register + 2) :
    execute_instruction s (.DrawSprite x y n) = .error "range end index out of range for slice" ∧
    execute_instruction t (.BinaryCodedDecimal xr) = .error "index out of bounds" := by
  constructor
  · simp only [execute_instruction]
    rw [if_neg (by omega)]
  · simp only [execute_instruction]
    rw [if_neg (by omega)]

/-- C8 witness: with I = 4095 a 2-byte sprite read errors, and with I = 4094
the BCD write errors. -/
theorem oob_sprite_read_and_bcd_write_are_checked_witness :
    (4096 < cOobDraw.address_register + 2 ∧ 4096 ≤ cOobBcd.address_register + 2) ∧
    (execute_instruction cOobDraw (.DrawSprite 0 1 2) =
        .error "range end index out of range for slice" ∧
      execute_instruction cOobBcd (.BinaryCodedDecimal 3) = .error "index out of bounds") :=
  ⟨⟨by norm_num [cOobDraw, chipBase], by norm_num [cOobBcd, chipBase]⟩,
    oob_sprite_read_and_bcd_write_are_checked cOobDraw cOobBcd 0 1 3 2
      (by norm_num [cOobDraw, chipBase]) (by norm_num [cOobBcd, chipBase])⟩

/-- C10: when the word at pc decodes to no instruction, `step_cycle` returns
the unknown-instruction error carrying that raw word, with the program counter
already advanced by 2 and every other field of the machine unchanged — the
decode failure is not atomic with respect to pc. -/
theorem decode_failure_advances_pc_only (s : Chip8)
    (hpc : s.pc + 1 < 4096)
    (hdec : ∀ i : Instruction, Instruction.tryFrom (fetchWord s) ≠ .ok i) :
    ∃ s', step_cycle s = .err (fetchWord s) s' ∧
      s'.pc = s.pc + 2 ∧ s'.memory = s.memory ∧ s'.registers = s.registers ∧
      s'.address_register = s.address_register ∧ s'.vram = s.vram ∧
      s'.stack = s.stack ∧ s'.keyboard = s.keyboard ∧
      s'.delay_timer = s.delay_timer ∧ s'.redraw = s.redraw ∧ s'.mode = s.mode := by
  cases h : Instruction.tryFrom (fetchWord s) with
  | ok i => exact absurd h (hdec i)
  | error e =>
    obtain rfl : e = fetchWord s := tryFrom_error_carries_word h
    refine ⟨{ s with pc := s.pc + 2 }, ?_, rfl, rfl, rfl, rfl, rfl, rfl, rfl, rfl, rfl, rfl⟩
    unfold step_cycle fetch_and_decode_instruction
    rw [if_pos hpc]
    simp only [h]

/-- C10 witness: the zeroed machine fetches the word 0x0000, which matches no
opcode pattern; the step reports it and only pc moves (0x200 to 0x202). -/
theorem decode_failure_advances_pc_only_witness :
    (chipBase.pc + 1 < 4096) ∧
    ∃ s', step_cycle chipBase = .err (fetchWord chipBase) s' ∧
      s'.pc = chipBase.pc + 2 ∧ s'.memory = chipBase.memory ∧
      s'.registers = chipBase.registers ∧
      s'.address_register = chipBase.address_register ∧ s'.vram = chipBase.vram ∧
      s'.stack = chipBase.stack ∧ s'.keyboard = chipBase.keyboard ∧
      s'.delay_timer = chipBase.delay_timer ∧ s'.redraw = chipBase.redraw ∧
      s'.mode = chipBase.mode :=
  ⟨by norm_num [chipBase],
    decode_failure_advances_pc_only chipBase (by norm_num [chipBase])
      (fun i h => by
        rw [show Instruction.tryFrom (fetchWord chipBase) = .error 0 from rfl] at h
        exact Except.noConfusion h)⟩

/-! Cell-level characterization of the DrawSprite loops. -/

/-- Auxiliary: a sprite bit is 0 or 1. -/
theorem bitOf_le_one (row k : Nat) : bitOf row k ≤ 1 := by
  unfold bitOf
  split <;> omega

/-- Auxiliary: writing `u8::from(old ^ bit == 1)` stores exactly the XOR when
both operands are single bits. -/
theorem ite_xor_eq (a b : Nat) (ha : a ≤ 1) (hb : b ≤ 1) :
    (if a ^^^ b = 1 then (1 : Nat) else 0) = a ^^^ b := by
  rcases (by omega : a = 0 ∨ a = 1) with rfl | rfl <;>
    rcases (by omega : b = 0 ∨ b = 1) with rfl | rfl <;> decide

/-- Auxiliary: XOR of single bits is a single bit. -/
theorem xor_le_one {a b : Nat} (ha : a ≤ 1) (hb : b ≤ 1) : a ^^^ b ≤ 1 := by
  rcases (by omega : a = 0 ∨ a = 1) with rfl | rfl <;>
    rcases (by omega : b = 0 ∨ b = 1) with rfl | rfl <;> decide

/-- What one DrawSprite loop-body iteration does to the vram: the target cell
(when on screen) receives the old value XOR the sprite bit; everything else is
untouched. -/
theorem drawPixel_fst (v : Nat → Nat) (vf x y b i : Nat) :
    (drawPixel v vf x y b).1 i =
      if x < 64 ∧ y < 32 ∧ i = 64 * y + x then
        (if v (64 * y + x) ^^^ b = 1 then 1 else 0)
      else v i := by
  unfold drawPixel get_pixel set_pixel vram_index
  by_cases hxy : 64 ≤ x ∨ 32 ≤ y
  · rw [if_pos hxy]
    simp only [Option.map_none']
    rw [if_neg (by rintro ⟨h1, h2, -⟩; omega)]
  · rw [if_neg hxy]
    simp only [Option.map_some']
    by_cases hi : i = 64 * y + x
    · subst hi
      have hC : x < 64 ∧ y < 32 ∧ 64 * y + x = 64 * y + x := ⟨by omega, by omega, rfl⟩
      rw [if_pos hC, Function.update_same]
      simp only [beq_iff_eq]
    · have hC : ¬(x < 64 ∧ y < 32 ∧ i = 64 * y + x) := by
        rintro ⟨-, -, h3⟩
        exact hi h3
      rw [if_neg hC, Function.update_noteq hi]

/-- What one DrawSprite loop-body iteration does to the collision flag: it
becomes 1 exactly when the target is on screen, was set, and the sprite bit is
set (old = 1 and new = old XOR bit = 0 forces bit = 1); otherwise it is kept. -/
theorem drawPixel_snd (v : Nat → Nat) (vf x y b : Nat) :
    (drawPixel v vf x y b).2 =
      if x < 64 ∧ y < 32 ∧ v (64 * y + x) = 1 ∧ b = 1 then 1 else vf := by
  unfold drawPixel get_pixel set_pixel vram_index
  by_cases hxy : 64 ≤ x ∨ 32 ≤ y
  · rw [if_pos hxy]
    simp only [Option.map_none']
    rw [if_neg (by rintro ⟨h1, h2, -⟩; omega)]
  · rw [if_neg hxy]
    simp only [Option.map_some']
    by_cases hold : v (64 * y + x) = 1 ∧ v (64 * y + x) ^^^ b = 0
    · rw [if_pos hold, if_pos]
      refine ⟨by omega, by omega, hold.1, ?_⟩
      have h2 := hold.2
      rw [hold.1] at h2
      have := Nat.xor_eq_zero.mp h2
      omega
    · rw [if_neg hold, if_neg]
      rintro ⟨-, -, h1, h2⟩
      exact hold ⟨h1, by rw [h1, h2]; decide⟩

/-- Cells that are not among a row call's on-screen targets are untouched. -/
theorem drawRowAux_fst_off (row y : Nat) :
    ∀ k x st i, (∀ j, j < k → x + j < 64 → y < 32 → i ≠ 64 * y + (x + j)) →
      (drawRowAux row x y k st).1 i = st.1 i := by
  intro k
  induction k with
  | zero => intro x st i _; rfl
  | succ k ih =>
    intro x st i H
    show (drawRowAux row (x + 1) y k (drawPixel st.1 st.2 x y (bitOf row k))).1 i = st.1 i
    rw [ih (x + 1) _ i (fun j hj h64 h32 => by
      have := H (j + 1) (by omega) (by omega) h32
      omega)]
    rw [drawPixel_fst]
    rw [if_neg (by
      rintro ⟨h1, h2, h3⟩
      exact H 0 (by omega) (by omega) h2 (by omega))]

/-- The row call preserves single-bit vram cells. -/
theorem drawRowAux_wf (row y : Nat) :
    ∀ k x st, (∀ i, st.1 i ≤ 1) → ∀ i, (drawRowAux row x y k st).1 i ≤ 1 := by
  intro k
  induction k with
  | zero => intro x st h i; exact h i
  | succ k ih =>
    intro x st h i
    show (drawRowAux row (x + 1) y k (drawPixel st.1 st.2 x y (bitOf row k))).1 i ≤ 1
    refine ih (x + 1) _ (fun j => ?_) i
    rw [drawPixel_fst]
    split
    · split <;> omega
    · exact h j

/-- Effect of a row call on a cell of its own row: position `cx` in `[x, x+k)`
receives bit `x + k - 1 - cx` of the row byte (the call draws bits `k-1` down
to `0` left to right), XORed in. -/
theorem drawRowAux_fst_at (row y : Nat) :
    ∀ k x st cx, cx < 64 → y < 32 → st.1 (64 * y + cx) ≤ 1 →
      (drawRowAux row x y k st).1 (64 * y + cx) =
        if x ≤ cx ∧ cx < x + k then
          st.1 (64 * y + cx) ^^^ bitOf row (x + k - 1 - cx)
        else st.1 (64 * y + cx) := by
  intro k
  induction k with
  | zero =>
    intro x st cx _ _ _
    rw [if_neg (by omega)]
    rfl
  | succ k ih =>
    intro x st cx hcx hy hwf
    show (drawRowAux row (x + 1) y k (drawPixel st.1 st.2 x y (bitOf row k))).1 (64 * y + cx) = _
    by_cases hcxx : cx = x
    · rw [drawRowAux_fst_off row y k (x + 1) _ _ (fun j _ _ _ => by omega)]
      rw [drawPixel_fst]
      rw [if_pos ⟨by omega, hy, by omega⟩]
      rw [show 64 * y + x = 64 * y + cx from by omega]
      rw [ite_xor_eq _ _ hwf (bitOf_le_one row k)]
      rw [if_pos (by omega : x ≤ cx ∧ cx < x + (k + 1))]
      have : x + (k + 1) - 1 - cx = k := by omega
      rw [this]
    · have hpx : (drawPixel st.1 st.2 x y (bitOf row k)).1 (64 * y + cx) = st.1 (64 * y + cx) := by
        rw [drawPixel_fst, if_neg (by rintro ⟨-, -, h3⟩; omega)]
      rw [ih (x + 1) _ cx hcx hy (by rw [hpx]; exact hwf), hpx]
      by_cases hin : x ≤ cx ∧ cx < x + (k + 1)
      · rw [if_pos (by omega : x + 1 ≤ cx ∧ cx < x + 1 + k), if_pos hin]
        have : x + 1 + k - 1 - cx = x + (k + 1) - 1 - cx := by omega
        rw [this]
      · rw [if_neg (by omega), if_neg hin]

/-- The row call's flag result: it is 1 exactly when it was already 1 or some
drawn on-screen target cell was set and its sprite bit set. -/
theorem drawRowAux_snd_iff (row y : Nat) :
    ∀ k x st,
      ((drawRowAux row x y k st).2 = 1 ↔
        (∃ j, j < k ∧ x + j < 64 ∧ y < 32 ∧ st.1 (64 * y + (x + j)) = 1 ∧
          bitOf row (k - 1 - j) = 1) ∨ st.2 = 1) := by
  intro k
  induction k with
  | zero =>
    intro x st
    simp only [drawRowAux]
    constructor
    · intro h
      exact .inr h
    · rintro (⟨j, hj, -⟩ | h)
      · omega
      · exact h
  | succ k ih =>
    intro x st
    show ((drawRowAux row (x + 1) y k (drawPixel st.1 st.2 x y (bitOf row k))).2 = 1 ↔ _)
    rw [ih (x + 1)]
    have hcell : ∀ j, (drawPixel st.1 st.2 x y (bitOf row k)).1 (64 * y + (x + 1 + j)) =
        st.1 (64 * y + (x + 1 + j)) := by
      intro j
      rw [drawPixel_fst, if_neg (by rintro ⟨-, -, h3⟩; omega)]
    rw [drawPixel_snd]
    constructor
    · rintro (⟨j, hj, h64, h32, hs, hb⟩ | hvf)
      · rw [hcell j] at hs
        exact .inl ⟨j + 1, by omega, by omega, h32,
          by rw [show x + (j + 1) = x + 1 + j from by omega]; exact hs,
          by rw [show k + 1 - 1 - (j + 1) = k - 1 - j from by omega]; exact hb⟩
      · split at hvf
        · rename_i hc
          refine .inl ⟨0, by omega, by omega, hc.2.1, ?_, ?_⟩
          · rw [show x + 0 = x from by omega]
            exact hc.2.2.1
          · rw [show k + 1 - 1 - 0 = k from by omega]
            exact hc.2.2.2
        · exact .inr hvf
    · rintro (⟨j, hj, h64, h32, hs, hb⟩ | hvf)
      · rcases j with _ | j'
        · refine .inr ?_
          have hb' : bitOf row k = 1 := by
            rw [show k + 1 - 1 - 0 = k from by omega] at hb
            exact hb
          have hs' : st.1 (64 * y + x) = 1 := by
            rw [show x + 0 = x from by omega] at hs
            exact hs
          rw [if_pos ⟨by omega, h32, hs', hb'⟩]
        · have hj' : j' < k := by omega
          refine .inl ⟨j', hj', by omega, h32, ?_, ?_⟩
          · rw [hcell j']
            rw [show x + 1 + j' = x + (j' + 1) from by omega]
            exact hs
          · rw [show k - 1 - j' = k + 1 - 1 - (j' + 1) from by omega]
            exact hb
      · refine .inr ?_
        split
        · rfl
        · exact hvf

/-- The flag accumulator is only ever kept or set to 1 by a row call. -/
theorem drawRowAux_snd_cases (row y : Nat) :
    ∀ k x st, (drawRowAux row x y k st).2 = st.2 ∨ (drawRowAux row x y k st).2 = 1 := by
  intro k
  induction k with
  | zero => intro x st; exact .inl rfl
  | succ k ih =>
    intro x st
    show (drawRowAux row (x + 1) y k (drawPixel st.1 st.2 x y (bitOf row k))).2 = st.2 ∨
      (drawRowAux row (x + 1) y k (drawPixel st.1 st.2 x y (bitOf row k))).2 = 1
    rcases ih (x + 1) (drawPixel st.1 st.2 x y (bitOf row k)) with h | h
    · rw [h, drawPixel_snd]
      split
      · exact .inr rfl
      · exact .inl rfl
    · exact .inr h

/-- Cells outside the whole sprite's on-screen target set are untouched. -/
theorem drawRows_fst_off (sx : Nat) :
    ∀ rows y st i,
      (∀ r j, r < List.length rows → j < 8 → sx + j < 64 → y + r < 32 →
        i ≠ 64 * (y + r) + (sx + j)) →
      (drawRows rows sx y st).1 i = st.1 i := by
  intro rows
  induction rows with
  | nil => intro y st i _; rfl
  | cons row rest ih =>
    intro y st i H
    show (drawRows rest sx (y + 1) (drawRowAux row sx y 8 st)).1 i = st.1 i
    rw [ih (y + 1) _ i (fun r j hr hj h64 h32 => by
      have := H (r + 1) j (by simp only [List.length_cons]; omega) hj h64 (by omega)
      omega)]
    exact drawRowAux_fst_off row y 8 sx st i (fun j hj h64 h32 => by
      have := H 0 j (by simp only [List.length_cons]; omega) hj h64 (by omega)
      omega)

/-- The whole sprite draw preserves single-bit vram cells. -/
theorem drawRows_wf (sx : Nat) :
    ∀ rows y st, (∀ i, st.1 i ≤ 1) → ∀ i, (drawRows rows sx y st).1 i ≤ 1 := by
  intro rows
  induction rows with
  | nil => intro y st h i; exact h i
  | cons row rest ih =>
    intro y st h i
    exact ih (y + 1) _ (drawRowAux_wf row y 8 sx st h) i

/-- Effect of the whole sprite draw on an on-screen cell: inside the target
rectangle, row `cy - y` contributes its bit `7 - (cx - sx)` (high bit first,
at column sx), XORed in; outside, the cell is untouched. -/
theorem drawRows_fst_at (sx : Nat) :
    ∀ rows y st cx cy, cx < 64 → cy < 32 → (∀ i, st.1 i ≤ 1) →
      (drawRows rows sx y st).1 (64 * cy + cx) =
        if y ≤ cy ∧ cy < y + List.length rows ∧ sx ≤ cx ∧ cx < sx + 8 then
          st.1 (64 * cy + cx) ^^^ bitOf (rows.getD (cy - y) 0) (sx + 7 - cx)
        else st.1 (64 * cy + cx) := by
  intro rows
  induction rows with
  | nil =>
    intro y st cx cy _ _ _
    rw [if_neg (by rintro ⟨h1, h2, -⟩; simp at h2; omega)]
    rfl
  | cons row rest ih =>
    intro y st cx cy hcx hcy hwf
    show (drawRows rest sx (y + 1) (drawRowAux row sx y 8 st)).1 (64 * cy + cx) = _
    by_cases hcyy : cy = y
    · rw [show (64 : Nat) * cy + cx = 64 * y + cx from by omega]
      rw [drawRows_fst_off sx rest (y + 1) _ _ (fun r j hr hj h64 h32 => by omega)]
      rw [drawRowAux_fst_at row y 8 sx st cx hcx (by omega) (hwf _)]
      by_cases hx : sx ≤ cx ∧ cx < sx + 8
      · rw [if_pos hx, if_pos (⟨by omega, by simp only [List.length_cons]; omega, hx.1, hx.2⟩ :
          y ≤ cy ∧ cy < y + List.length (row :: rest) ∧ sx ≤ cx ∧ cx < sx + 8)]
        rw [show cy - y = 0 from by omega, List.getD_cons_zero,
          show sx + 8 - 1 - cx = sx + 7 - cx from by omega]
      · rw [if_neg hx, if_neg (by rintro ⟨-, -, h3, h4⟩; exact hx ⟨h3, h4⟩)]
    · have hst' : (drawRowAux row sx y 8 st).1 (64 * cy + cx) = st.1 (64 * cy + cx) :=
        drawRowAux_fst_off row y 8 sx st _ (fun j hj h64 h32 => by omega)
      rw [ih (y + 1) _ cx cy hcx hcy (drawRowAux_wf row y 8 sx st hwf), hst']
      by_cases hin : y ≤ cy ∧ cy < y + List.length (row :: rest) ∧ sx ≤ cx ∧ cx < sx + 8
      · have hin' : y + 1 ≤ cy ∧ cy < y + 1 + List.length rest ∧ sx ≤ cx ∧ cx < sx + 8 := by
          obtain ⟨h1, h2, h3, h4⟩ := hin
          simp only [List.length_cons] at h2
          exact ⟨by omega, by omega, h3, h4⟩
        rw [if_pos hin', if_pos hin]
        rw [show cy - y = (cy - (y + 1)) + 1 from by omega, List.getD_cons_succ]
      · rw [if_neg (by
          rintro ⟨h1, h2, h3, h4⟩
          exact hin ⟨by omega, by simp only [List.length_cons]; omega, h3, h4⟩), if_neg hin]

/-- The flag accumulator is only ever kept or set to 1 by the sprite draw. -/
theorem drawRows_snd_cases (sx : Nat) :
    ∀ rows y st, (drawRows rows sx y st).2 = st.2 ∨ (drawRows rows sx y st).2 = 1 := by
  intro rows
  induction rows with
  | nil => intro y st; exact .inl rfl
  | cons row rest ih =>
    intro y st
    show (drawRows rest sx (y + 1) (drawRowAux row sx y 8 st)).2 = st.2 ∨
      (drawRows rest sx (y + 1) (drawRowAux row sx y 8 st)).2 = 1
    rcases ih (y + 1) (drawRowAux row sx y 8 st) with h | h
    · rw [h]
      exact drawRowAux_snd_cases row y 8 sx st
    · exact .inr h

/-- The sprite draw's flag result: 1 exactly when it started at 1 or some
on-screen target cell (row r, column offset j) was set while its sprite bit
(bit 7 - j of row byte r) was set. -/
theorem drawRows_snd_iff (sx : Nat) :
    ∀ rows y st,
      ((drawRows rows sx y st).2 = 1 ↔
        (∃ r j, r < List.length rows ∧ j < 8 ∧ sx + j < 64 ∧ y + r < 32 ∧
          st.1 (64 * (y + r) + (sx + j)) = 1 ∧ bitOf (rows.getD r 0) (7 - j) = 1) ∨
        st.2 = 1) := by
  intro rows
  induction rows with
  | nil =>
    intro y st
    constructor
    · intro h
      exact .inr h
    · rintro (⟨r, j, hr, -⟩ | h)
      · simp at hr
      · exact h
  | cons row rest ih =>
    intro y st
    show ((drawRows rest sx (y + 1) (drawRowAux row sx y 8 st)).2 = 1 ↔ _)
    rw [ih (y + 1)]
    have hcell : ∀ r j, sx + j < 64 → y + 1 + r < 32 →
        (drawRowAux row sx y 8 st).1 (64 * (y + 1 + r) + (sx + j)) =
          st.1 (64 * (y + 1 + r) + (sx + j)) :=
      fun r j h64 h32 =>
        drawRowAux_fst_off row y 8 sx st _ (fun j' hj' h64' h32' => by omega)
    rw [drawRowAux_snd_iff row y 8 sx st]
    constructor
    · rintro (⟨r, j, hr, hj, h64, h32, hs, hb⟩ | ⟨j, hj, h64, h32, hs, hb⟩ | hvf)
      · rw [hcell r j h64 h32] at hs
        refine .inl ⟨r + 1, j, by simp only [List.length_cons]; omega, hj, h64, by omega, ?_, ?_⟩
        · rw [show y + (r + 1) = y + 1 + r from by omega]
          exact hs
        · rw [show (r + 1 : Nat) = r + 1 from rfl, List.getD_cons_succ]
          exact hb
      · refine .inl ⟨0, j, by simp only [List.length_cons]; omega, hj, h64, by omega, ?_, ?_⟩
        · rw [show y + 0 = y from by omega]
          exact hs
        · rw [List.getD_cons_zero]
          rw [show (7 : Nat) - j = 8 - 1 - j from by omega]
          exact hb
      · exact .inr hvf
    · rintro (⟨r, j, hr, hj, h64, h32, hs, hb⟩ | hvf)
      · rcases r with _ | r'
        · refine .inr (.inl ⟨j, hj, h64, by omega, ?_, ?_⟩)
          · rw [show y + 0 = y from by omega] at hs
            exact hs
          · rw [List.getD_cons_zero] at hb
            rw [show (8 : Nat) - 1 - j = 7 - j from by omega]
            exact hb
        · have hr' : r' < List.length rest := by
            simp only [List.length_cons] at hr
            omega
          refine .inl ⟨r', j, hr', hj, h64, by omega, ?_, ?_⟩
          · rw [hcell r' j h64 (by omega)]
            rw [show y + 1 + r' = y + (r' + 1) from by omega]
            exact hs
          · rw [List.getD_cons_succ] at hb
            exact hb
      · exact .inr (.inr hvf)

/-- The wrapped start column is always on screen. -/
theorem drawStartX_lt (s : Chip8) (x : Fin 16) : drawStartX s x < 64 := by
  unfold drawStartX
  split <;> omega

/-- The wrapped start row is always on screen. -/
theorem drawStartY_lt (s : Chip8) (y : Fin 16) : drawStartY s y < 32 := by
  unfold drawStartY
  split <;> omega

/-- Reading the r-th byte of the fetched sprite slice. -/
theorem rowsList_getD (n r : Nat) (f : Nat → Nat) (h : r < n) :
    ((List.range n).map f).getD r 0 = f r := by
  rw [List.getD_eq_getElem?_getD, List.getElem?_map, List.getElem?_range h]
  rfl

/-- Unfolding of the in-bounds DrawSprite arm: the vram becomes the sprite
fold's buffer, register 0xF the fold's collision flag, and redraw is set. -/
theorem execute_drawSprite_eq (s : Chip8) (x y : Fin 16) (n : Nat)
    (hmem : s.address_register + n ≤ 4096) :
    execute_instruction s (.DrawSprite x y n) =
      .ok { s with
              vram := (drawRows ((List.range n).map fun r => s.memory (s.address_register + r))
                (drawStartX s x) (drawStartY s y) (s.vram, 0)).1,
              registers := (Function.update s.registers 15
                (drawRows ((List.range n).map fun r => s.memory (s.address_register + r))
                  (drawStartX s x) (drawStartY s y) (s.vram, 0)).2),
              redraw := true } := by
  simp only [execute_instruction]
  rw [if_pos hmem]

/-- The sprite-bit table only depends on the fields DrawSprite reads. -/
theorem spriteBit_congr (s t : Chip8) (x y : Fin 16) (n : Nat)
    (hmem : t.memory = s.memory) (hI : t.address_register = s.address_register)
    (hx : t.registers x = s.registers x) (hy : t.registers y = s.registers y) :
    spriteBit t x y n = spriteBit s x y n := by
  funext cx cy
  unfold spriteBit drawStartX drawStartY
  rw [hmem, hI, hx, hy]

/-- The (row offset, column offset) collision condition of the draw fold is the
(cell coordinate) collision condition of the claim. -/
theorem draw_collision_iff (s : Chip8) (x y : Fin 16) (n : Nat) (v : Nat → Nat) :
    (∃ r j, r < List.length ((List.range n).map fun rr => s.memory (s.address_register + rr)) ∧
      j < 8 ∧ drawStartX s x + j < 64 ∧ drawStartY s y + r < 32 ∧
      v (64 * (drawStartY s y + r) + (drawStartX s x + j)) = 1 ∧
      bitOf (((List.range n).map fun rr => s.memory (s.address_register + rr)).getD r 0)
        (7 - j) = 1) ↔
    (∃ cx cy, cx < 64 ∧ cy < 32 ∧ v (64 * cy + cx) = 1 ∧ spriteBit s x y n cx cy = 1) := by
  simp only [List.length_map, List.length_range]
  constructor
  · rintro ⟨r, j, hr, hj, h64, h32, hs, hb⟩
    refine ⟨drawStartX s x + j, drawStartY s y + r, h64, h32, hs, ?_⟩
    unfold spriteBit
    rw [if_pos ⟨by omega, by omega, by omega, by omega⟩]
    rw [show drawStartY s y + r - drawStartY s y = r from by omega,
      show drawStartX s x + j - drawStartX s x = j from by omega]
    rw [rowsList_getD n r _ hr] at hb
    exact hb
  · rintro ⟨cx, cy, hcx, hcy, hs, hb⟩
    unfold spriteBit at hb
    by_cases hin : drawStartY s y ≤ cy ∧ cy < drawStartY s y + n ∧
        drawStartX s x ≤ cx ∧ cx < drawStartX s x + 8
    · obtain ⟨h1, h2, h3, h4⟩ := hin
      refine ⟨cy - drawStartY s y, cx - drawStartX s x, by omega, by omega, by omega, by omega,
        ?_, ?_⟩
      · rw [show 64 * (drawStartY s y + (cy - drawStartY s y)) +
            (drawStartX s x + (cx - drawStartX s x)) = 64 * cy + cx from by omega]
        exact hs
      · rw [rowsList_getD n _ _ (by omega)]
        rw [if_pos ⟨h1, h2, h3, h4⟩] at hb
        exact hb
    · rw [if_neg hin] at hb
      omega

/-- Full characterization of an in-bounds DrawSprite execution, shared by the
C3 and C9 claims. -/
theorem drawSprite_char (s : Chip8) (x y : Fin 16) (n : Nat)
    (hv : ∀ i, s.vram i ≤ 1) (hmem : s.address_register + n ≤ 4096) :
    ∃ s', execute_instruction s (.DrawSprite x y n) = .ok s' ∧
      s'.memory = s.memory ∧
      s'.address_register = s.address_register ∧
      s'.redraw = true ∧
      (∀ i, s'.vram i ≤ 1) ∧
      (∀ i, 2048 ≤ i → s'.vram i = s.vram i) ∧
      (∀ cx cy, cx < 64 → cy < 32 →
        s'.vram (64 * cy + cx) = s.vram (64 * cy + cx) ^^^ spriteBit s x y n cx cy) ∧
      (∀ r : Fin 16, r ≠ 15 → s'.registers r = s.registers r) ∧
      ((∃ cx cy, cx < 64 ∧ cy < 32 ∧ s.vram (64 * cy + cx) = 1 ∧
          spriteBit s x y n cx cy = 1) → s'.registers 15 = 1) ∧
      (¬ (∃ cx cy, cx < 64 ∧ cy < 32 ∧ s.vram (64 * cy + cx) = 1 ∧
          spriteBit s x y n cx cy = 1) → s'.registers 15 = 0) := by
  refine ⟨_, execute_drawSprite_eq s x y n hmem, rfl, rfl, rfl, ?_, ?_, ?_, ?_, ?_, ?_⟩
  · exact drawRows_wf _ _ _ _ hv
  · intro i hi
    exact drawRows_fst_off _ _ _ _ i (fun r j _ _ h64 h32 => by omega)
  · intro cx cy hcx hcy
    dsimp only
    rw [drawRows_fst_at _ _ _ _ cx cy hcx hcy hv]
    unfold spriteBit
    simp only [List.length_map, List.length_range]
    by_cases hin : drawStartY s y ≤ cy ∧ cy < drawStartY s y + n ∧
        drawStartX s x ≤ cx ∧ cx < drawStartX s x + 8
    · rw [if_pos hin, if_pos hin]
      rw [rowsList_getD n _ _ (by omega)]
      rw [show drawStartX s x + 7 - cx = 7 - (cx - drawStartX s x) from by omega]
    · rw [if_neg hin, if_neg hin, Nat.xor_zero]
  · intro r hr
    exact Function.update_noteq hr _ _
  · intro hcol
    dsimp only
    rw [Function.update_same]
    rw [drawRows_snd_iff]
    exact .inl ((draw_collision_iff s x y n s.vram).mpr hcol)
  · intro hcol
    dsimp only
    rw [Function.update_same]
    rcases drawRows_snd_cases (drawStartX s x)
        ((List.range n).map fun r => s.memory (s.address_register + r))
        (drawStartY s y) (s.vram, 0) with h | h
    · exact h
    · exfalso
      rcases (drawRows_snd_iff (drawStartX s x) _ (drawStartY s y) (s.vram, 0)).mp h with hc | hc
      · exact hcol ((draw_collision_iff s x y n s.vram).mp hc)
      · simp at hc

/-- C3: every in-bounds DrawSprite execution XORs each sprite bit (high bit
first) of each of the n row bytes read from memory at I into its target vram
cell, silently drops targets beyond the 64x32 display (no mid-sprite
wraparound: cells outside the start-anchored rectangle are untouched, and
nothing at all is written at indexes beyond the screen), sets the redraw flag,
and leaves register 0xF at 1 exactly when some originally-set target pixel had
its sprite bit set (i.e. was cleared by the XOR) — otherwise at 0, because the
flag is cleared before drawing. -/
theorem drawSprite_xor_clip_collision_redraw (s : Chip8) (x y : Fin 16) (n : Nat)
    (hv : ∀ i, s.vram i ≤ 1) (hmem : s.address_register + n ≤ 4096) :
    ∃ s', execute_instruction s (.DrawSprite x y n) = .ok s' ∧
      s'.redraw = true ∧
      (∀ cx cy, cx < 64 → cy < 32 →
        s'.vram (64 * cy + cx) = s.vram (64 * cy + cx) ^^^ spriteBit s x y n cx cy) ∧
      (∀ i, 2048 ≤ i → s'.vram i = s.vram i) ∧
      ((∃ cx cy, cx < 64 ∧ cy < 32 ∧ s.vram (64 * cy + cx) = 1 ∧
          spriteBit s x y n cx cy = 1) → s'.registers 15 = 1) ∧
      (¬ (∃ cx cy, cx < 64 ∧ cy < 32 ∧ s.vram (64 * cy + cx) = 1 ∧
          spriteBit s x y n cx cy = 1) → s'.registers 15 = 0) := by
  obtain ⟨s', he, -, -, hred, -, hoff, hcell, -, h1, h0⟩ := drawSprite_char s x y n hv hmem
  exact ⟨s', he, hred, hcell, hoff, h1, h0⟩

/-- C3 witness: drawing the one-byte sprite 0xFF at (0,0) on a blank screen. -/
theorem drawSprite_xor_clip_collision_redraw_witness :
    (∀ i, cDrawW.vram i ≤ 1) ∧ cDrawW.address_register + 1 ≤ 4096 ∧
    (∃ s', execute_instruction cDrawW (.DrawSprite 0 1 1) = .ok s' ∧
      s'.redraw = true ∧
      (∀ cx cy, cx < 64 → cy < 32 →
        s'.vram (64 * cy + cx) = cDrawW.vram (64 * cy + cx) ^^^ spriteBit cDrawW 0 1 1 cx cy) ∧
      (∀ i, 2048 ≤ i → s'.vram i = cDrawW.vram i) ∧
      ((∃ cx cy, cx < 64 ∧ cy < 32 ∧ cDrawW.vram (64 * cy + cx) = 1 ∧
          spriteBit cDrawW 0 1 1 cx cy = 1) → s'.registers 15 = 1) ∧
      (¬ (∃ cx cy, cx < 64 ∧ cy < 32 ∧ cDrawW.vram (64 * cy + cx) = 1 ∧
          spriteBit cDrawW 0 1 1 cx cy = 1) → s'.registers 15 = 0)) :=
  ⟨fun i => by simp [cDrawW, chipBase], by simp [cDrawW, chipBase],
    drawSprite_xor_clip_collision_redraw cDrawW 0 1 1
      (fun i => by simp [cDrawW, chipBase]) (by simp [cDrawW, chipBase])⟩

/-- C9: drawing the same sprite twice in succession at the same location (the
second draw reads the same start registers, and memory and I are untouched by
the first draw) restores the display buffer exactly, and the second draw's
collision flag is 1 precisely when the first draw turned some pixel on —
collision depends on the path (the first draw's effect), not merely on the
original state. -/
theorem drawSprite_double_draw_restores_vram (s : Chip8) (x y : Fin 16) (n : Nat)
    (hv : ∀ i, s.vram i ≤ 1) (hmem : s.address_register + n ≤ 4096)
    (s₁ : Chip8) (h₁ : execute_instruction s (.DrawSprite x y n) = .ok s₁)
    (hrx : s₁.registers x = s.registers x) (hry : s₁.registers y = s.registers y) :
    ∃ s₂, execute_instruction s₁ (.DrawSprite x y n) = .ok s₂ ∧
      s₂.vram = s.vram ∧
      ((∃ i, s.vram i = 0 ∧ s₁.vram i = 1) → s₂.registers 15 = 1) ∧
      (¬ (∃ i, s.vram i = 0 ∧ s₁.vram i = 1) → s₂.registers 15 = 0) := by
  obtain ⟨s₁', he₁, hm₁, hI₁, -, hwf₁, hoff₁, hcell₁, -, -, -⟩ := drawSprite_char s x y n hv hmem
  rw [he₁] at h₁
  have heq : s₁' = s₁ := Except.ok.inj h₁
  rw [heq] at hm₁ hI₁ hwf₁ hoff₁ hcell₁
  have hbit : spriteBit s₁ x y n = spriteBit s x y n :=
    spriteBit_congr s s₁ x y n hm₁ hI₁ hrx hry
  have hmem₁ : s₁.address_register + n ≤ 4096 := by
    rw [hI₁]
    exact hmem
  obtain ⟨s₂, he₂, -, -, -, -, hoff₂, hcell₂, -, h1₂, h0₂⟩ := drawSprite_char s₁ x y n hwf₁ hmem₁
  have hiff : (∃ cx cy, cx < 64 ∧ cy < 32 ∧ s₁.vram (64 * cy + cx) = 1 ∧
      spriteBit s₁ x y n cx cy = 1) ↔ (∃ i, s.vram i = 0 ∧ s₁.vram i = 1) := by
    constructor
    · rintro ⟨cx, cy, hcx, hcy, hs1, hb⟩
      rw [hbit] at hb
      refine ⟨64 * cy + cx, ?_, hs1⟩
      have hc := hcell₁ cx cy hcx hcy
      rw [hb] at hc
      have h' : s.vram (64 * cy + cx) = s₁.vram (64 * cy + cx) ^^^ 1 := by
        rw [hc, Nat.xor_assoc]
        simp
      rw [h', hs1]
      decide
    · rintro ⟨i, hs0, hs1⟩
      have hlt : i < 2048 := by
        by_contra hge
        rw [hoff₁ i (by omega)] at hs1
        omega
      obtain ⟨cx, cy, hcx, hcy, rfl⟩ : ∃ cx cy, cx < 64 ∧ cy < 32 ∧ i = 64 * cy + cx :=
        ⟨i % 64, i / 64, by omega, by omega, by omega⟩
      refine ⟨cx, cy, hcx, hcy, hs1, ?_⟩
      rw [hbit]
      have hc := hcell₁ cx cy hcx hcy
      rw [hs0, Nat.zero_xor] at hc
      rw [← hc]
      exact hs1
  refine ⟨s₂, he₂, ?_, fun hD => h1₂ (hiff.mpr hD), fun hD => h0₂ (fun hC => hD (hiff.mp hC))⟩
  funext i
  by_cases hlt : i < 2048
  · obtain ⟨cx, cy, hcx, hcy, rfl⟩ : ∃ cx cy, cx < 64 ∧ cy < 32 ∧ i = 64 * cy + cx :=
      ⟨i % 64, i / 64, by omega, by omega, by omega⟩
    rw [hcell₂ cx cy hcx hcy, hbit, hcell₁ cx cy hcx hcy, Nat.xor_assoc, Nat.xor_self,
      Nat.xor_zero]
  · rw [hoff₂ i (by omega), hoff₁ i (by omega)]

/-- C9 witness: drawing the 0xFF sprite at (0,0) twice on a blank screen;
`cDrawn` is the state after the first draw. -/
theorem drawSprite_double_draw_restores_vram_witness :
    (∀ i, cDrawW.vram i ≤ 1) ∧ cDrawW.address_register + 1 ≤ 4096 ∧
    execute_instruction cDrawW (.DrawSprite 0 1 1) = .ok cDrawn ∧
    cDrawn.registers 0 = cDrawW.registers 0 ∧ cDrawn.registers 1 = cDrawW.registers 1 ∧
    (∃ s₂, execute_instruction cDrawn (.DrawSprite 0 1 1) = .ok s₂ ∧
      s₂.vram = cDrawW.vram ∧
      ((∃ i, cDrawW.vram i = 0 ∧ cDrawn.vram i = 1) → s₂.registers 15 = 1) ∧
      (¬ (∃ i, cDrawW.vram i = 0 ∧ cDrawn.vram i = 1) → s₂.registers 15 = 0)) :=
  ⟨fun i => by simp [cDrawW, chipBase], by simp [cDrawW, chipBase], rfl, rfl, rfl,
    drawSprite_double_draw_restores_vram cDrawW 0 1 1
      (fun i => by simp [cDrawW, chipBase]) (by simp [cDrawW, chipBase]) cDrawn rfl rfl rfl⟩
